import Mathlib

/-!
Shallow embedding of the retrieval-and-grounding core of the RAG
question-answering service: the word-window chunker of
`app/services/document_processor.py` (`chunk_text`) and the answer
assembler of `app/services/qa_service.py` (`QAService.generate_answer`,
`QAService._format_sources`, `QAService._calculate_confidence`).

Python-specific semantics embedded explicitly:
- `str.split()` (no argument) splits on runs of whitespace and never
  produces empty strings → `splitWords`;
- `" ".join(ws)` → `joinWords`;
- the truthiness test `if chunk.strip():` holds iff the string contains a
  non-whitespace character → `isNonBlank`;
- `range(0, n, step)` raises `ValueError` when `step = 0`, is empty when
  `step < 0`, and otherwise enumerates `0, step, 2*step, …` below `n`;
  the loop body is embedded in `chunkAux` (structural recursion on a fuel
  argument that starts at `words.length`, an upper bound on the number of
  iterations, so that the function both computes and terminates);
- float distances are idealized as rationals.
-/

/-- Python `str.split()` worker: walk the character list, accumulating the
current word in reverse in `acc`; whitespace flushes the accumulator. -/
def splitWordsAux : List Char → List Char → List String
  | [], acc => if acc.isEmpty then [] else [String.mk acc.reverse]
  | c :: rest, acc =>
    if c.isWhitespace then
      (if acc.isEmpty then [] else [String.mk acc.reverse]) ++ splitWordsAux rest []
    else
      splitWordsAux rest (c :: acc)

/-- Python `text.split()`: whitespace-delimited words, no empty strings. -/
def splitWords (text : String) : List String :=
  splitWordsAux text.data []

/-- Character-list form of Python `" ".join`: concatenate with single
space separators. -/
def joinData : List (List Char) → List Char
  | [] => []
  | [w] => w
  | w :: ws => w ++ ' ' :: joinData ws

/-- Python `" ".join(ws)` on strings. -/
def joinWords (ws : List String) : String :=
  String.mk (joinData (ws.map String.data))

/-- Python truthiness of `chunk.strip()`: true iff the string contains at
least one non-whitespace character. -/
def isNonBlank (s : String) : Bool :=
  s.data.any (fun c => !c.isWhitespace)

/-- The loop of `chunk_text` at the word-window level: starting at word
index `i`, emit the window `words[i : i+cs]`, stop when `i + cs ≥ len`
(the `break`), else advance by the step `s1 + 1`.  `fuel` starts at
`words.length`, which bounds the iteration count, so the recursion is
structural and the `fuel = 0` branch is never reached from `chunkWindows`
(proved below as fuel-irrelevance). -/
def chunkAux (words : List String) (cs s1 : Nat) : Nat → Nat → List (List String)
  | _, 0 => []
  | i, fuel + 1 =>
    if i < words.length then
      ((words.drop i).take cs) ::
        (if words.length ≤ i + cs then []
         else chunkAux words cs s1 (i + s1 + 1) fuel)
    else []

/-- All word windows emitted by the loop of `chunk_text`. -/
def chunkWindows (words : List String) (cs s1 : Nat) : List (List String) :=
  chunkAux words cs s1 0 words.length

/-- `chunk_text(text, chunk_size, overlap)` from
`app/services/document_processor.py`.  `range(0, len(words), chunk_size -
overlap)` raises `ValueError` for a zero step (`chunk_size = overlap`),
is empty for a negative step (`chunk_size < overlap`), and otherwise the
loop joins each window with single spaces and keeps it when
`chunk.strip()` is truthy. -/
def chunk_text (text : String) (chunk_size overlap : Nat) : Except String (List String) :=
  let words := splitWords text
  if chunk_size = overlap then
    Except.error "range() arg 3 must not be zero"
  else if chunk_size < overlap then
    Except.ok []
  else
    Except.ok ((chunkWindows words chunk_size (chunk_size - overlap - 1)).filterMap
      (fun win =>
        let chunk := joinWords win
        if isNonBlank chunk then some chunk else none))

/-- One retrieval hit as returned by `VectorStore.search`: the chunk text,
the `filename` entry of its metadata (`metadata.get("filename")`), and the
cosine distance (a float, idealized as a rational). -/
structure SearchResult where
  chunk_text : String
  filename : Option String
  distance : Rat
deriving DecidableEq

/-- One formatted source as produced by `QAService._format_sources`. -/
structure Source where
  chunk_text : String
  document : String
  relevance_score : Rat
deriving DecidableEq

/-- The dictionary returned by `QAService.generate_answer`. -/
structure AnswerResult where
  answer : String
  sources : List Source
  confidence : String
deriving DecidableEq

/-- Outcome of one call to the opaque generation backend
(`self.model.generate_content(prompt, ...)`): either a response whose
`.text` is the given string, or a raised exception with the given
`str(e)`. -/
inductive GenOutcome where
  | success (text : String)
  | failure (msg : String)

/-- `QAService._format_sources`: for each result, the first 200 characters
of its chunk text (`result["chunk_text"][:200]`) with `"..."` appended,
the metadata filename defaulted to `"Unknown"`, and relevance
`1.0 - distance`. -/
def format_sources (results : List SearchResult) : List Source :=
  results.map (fun r =>
    { chunk_text := String.mk (r.chunk_text.data.take 200) ++ "...",
      document := r.filename.getD "Unknown",
      relevance_score := 1 - r.distance })

/-- `QAService._calculate_confidence`: bucket the mean distance. -/
def calculate_confidence (results : List SearchResult) : String :=
  if results.isEmpty then "none"
  else
    let avg : Rat := ((results.map SearchResult.distance).sum) / (results.length : Rat)
    if avg < 3/10 then "high"
    else if avg < 6/10 then "medium"
    else "low"

/-- `QAService.create_prompt`. -/
def create_prompt (question context : String) : String :=
  "You are a helpful assistant answering questions based on provided context.\n\nContext:\n"
    ++ context
    ++ "\n\nQuestion: " ++ question
    ++ "\n\nInstructions:\n- Answer the question based ONLY on the context provided\n- If the answer is not in the context, say \"I don't have enough information to answer this question\"\n- Be concise and accurate\n- Cite which part of the context you used if relevant\n\nAnswer:"

/-- `QAService.generate_answer`, with `VectorStore.search` already applied
(its results are the `search_results` argument), `has_model` standing for
`self.model` being configured (a Gemini API key was present), and
`generator` standing for the opaque generation backend: it is applied to
the constructed prompt and either succeeds or raises. -/
def generate_answer (search_results : List SearchResult) (question : String)
    (has_model : Bool) (generator : String → GenOutcome) : AnswerResult :=
  if search_results.isEmpty then
    { answer := "No relevant information found in the uploaded documents.",
      sources := [],
      confidence := "none" }
  else
    let context := String.intercalate "\n\n"
      (search_results.enum.map
        (fun p => "[Source " ++ toString (p.1 + 1) ++ "]: " ++ p.2.chunk_text))
    if !has_model then
      { answer := "Gemini API key not configured. Please set GEMINI_API_KEY in .env file.",
        sources := format_sources search_results,
        confidence := "none" }
    else
      match generator (create_prompt question context) with
      | GenOutcome.success t =>
        { answer := t.trim,
          sources := format_sources search_results,
          confidence := calculate_confidence search_results }
      | GenOutcome.failure m =>
        { answer := "Error generating answer: " ++ m,
          sources := format_sources search_results,
          confidence := "error" }

/-- A sample retrieval hit whose chunk text is exactly 150 characters. -/
def c3result : SearchResult :=
  { chunk_text := String.mk (List.replicate 150 'x'),
    filename := some "doc.txt",
    distance := 1/10 }

/-- Defining equation of `splitWordsAux` on the empty list. -/
theorem splitWordsAux_nil (acc : List Char) :
    splitWordsAux [] acc = if acc.isEmpty then [] else [String.mk acc.reverse] := rfl

/-- Defining equation of `splitWordsAux` on a cons cell. -/
theorem splitWordsAux_cons (c : Char) (rest acc : List Char) :
    splitWordsAux (c :: rest) acc =
      if c.isWhitespace then
        (if acc.isEmpty then [] else [String.mk acc.reverse]) ++ splitWordsAux rest []
      else splitWordsAux rest (c :: acc) := rfl

/-- A word built by `splitWordsAux` from a non-whitespace accumulator is
non-empty and contains no whitespace character. -/
theorem splitWordsAux_sound :
    ∀ (l acc : List Char), (∀ c ∈ acc, c.isWhitespace = false) →
      ∀ w ∈ splitWordsAux l acc, w.data ≠ [] ∧ ∀ c ∈ w.data, c.isWhitespace = false := by
  intro l
  induction l with
  | nil =>
    intro acc hacc w hw
    rw [splitWordsAux_nil] at hw
    by_cases he : acc.isEmpty
    · simp [he] at hw
    · simp [he] at hw
      subst hw
      constructor
      · simpa [List.isEmpty_iff] using he
      · intro c hc
        exact hacc c (by simpa using hc)
  | cons c rest ih =>
    intro acc hacc w hw
    rw [splitWordsAux_cons] at hw
    by_cases hws : c.isWhitespace
    · simp only [hws, if_true] at hw
      rcases List.mem_append.mp hw with h1 | h2
      · by_cases he : acc.isEmpty
        · simp [he] at h1
        · simp [he] at h1
          subst h1
          constructor
          · simpa [List.isEmpty_iff] using he
          · intro d hd
            exact hacc d (by simpa using hd)
      · exact ih [] (by simp) w h2
    · simp only [hws, if_false] at hw
      refine ih (c :: acc) ?_ w hw
      intro d hd
      rcases List.mem_cons.mp hd with h | h
      · subst h; simpa using hws
      · exact hacc d h

/-- Every word produced by `splitWords` is non-empty and whitespace-free. -/
theorem splitWords_sound (text : String) :
    ∀ w ∈ splitWords text, w.data ≠ [] ∧ ∀ c ∈ w.data, c.isWhitespace = false :=
  splitWordsAux_sound text.data [] (by simp)

/-- Consuming a whitespace-free block just moves it into the accumulator. -/
theorem splitWordsAux_append (w : List Char) :
    ∀ (rest acc : List Char), (∀ c ∈ w, c.isWhitespace = false) →
      splitWordsAux (w ++ rest) acc = splitWordsAux rest (w.reverse ++ acc) := by
  induction w with
  | nil => intro rest acc _; simp
  | cons c w' ih =>
    intro rest acc hw
    have hc : c.isWhitespace = false := hw c (List.mem_cons_self c w')
    have hstep : splitWordsAux (c :: (w' ++ rest)) acc = splitWordsAux (w' ++ rest) (c :: acc) := by
      rw [splitWordsAux_cons, hc]
      simp
    rw [List.cons_append, hstep, ih rest (c :: acc) (fun d hd => hw d (List.mem_cons_of_mem c hd))]
    simp

/-- `splitWordsAux` inverts `joinData` on lists of non-empty
whitespace-free words. -/
theorem splitWordsAux_joinData :
    ∀ ds : List (List Char),
      (∀ d ∈ ds, d ≠ [] ∧ ∀ c ∈ d, c.isWhitespace = false) →
      splitWordsAux (joinData ds) [] = ds.map String.mk := by
  intro ds
  induction ds with
  | nil => intro _; rfl
  | cons d ds ih =>
    intro h
    obtain ⟨hd, hdw⟩ := h d (List.mem_cons_self d ds)
    cases ds with
    | nil =>
      have : joinData [d] = d := rfl
      rw [this]
      have h2 := splitWordsAux_append d [] [] hdw
      simp only [List.append_nil] at h2
      rw [h2, splitWordsAux_nil]
      have : d.reverse.isEmpty = false := by
        simp [List.isEmpty_iff, hd]
      simp [this]
    | cons d' ds' =>
      have hjd : joinData (d :: d' :: ds') = d ++ ' ' :: joinData (d' :: ds') := rfl
      rw [hjd, splitWordsAux_append d (' ' :: joinData (d' :: ds')) [] hdw,
        List.append_nil, splitWordsAux_cons]
      have hsp : (' ' : Char).isWhitespace = true := by decide
      have hne : d.reverse.isEmpty = false := by
        simp [List.isEmpty_iff, hd]
      simp only [hsp, if_true, hne, if_false, List.reverse_reverse]
      rw [ih (fun e he => h e (List.mem_cons_of_mem d he))]
      simp

/-- `splitWords` inverts `joinWords` on lists of genuine words. -/
theorem splitWords_joinWords (ws : List String)
    (h : ∀ w ∈ ws, w.data ≠ [] ∧ ∀ c ∈ w.data, c.isWhitespace = false) :
    splitWords (joinWords ws) = ws := by
  unfold splitWords joinWords
  rw [splitWordsAux_joinData (ws.map String.data) ?_]
  · rw [List.map_map]
    have hid : (String.mk ∘ String.data) = id := funext fun w => rfl
    rw [hid, List.map_id]
  · intro d hd
    rcases List.mem_map.mp hd with ⟨w, hw, rfl⟩
    exact h w hw

/-- `joinData` of a non-empty list starts with its first block. -/
theorem joinData_cons (d : List Char) (ds : List (List Char)) :
    ∃ t, joinData (d :: ds) = d ++ t := by
  cases ds with
  | nil => exact ⟨[], by simp [joinData]⟩
  | cons d' ds' => exact ⟨' ' :: joinData (d' :: ds'), rfl⟩

/-- Joining a non-empty list of genuine words yields a chunk that passes
the `chunk.strip()` truthiness test. -/
theorem isNonBlank_joinWords (ws : List String) (hne : ws ≠ [])
    (h : ∀ w ∈ ws, w.data ≠ [] ∧ ∀ c ∈ w.data, c.isWhitespace = false) :
    isNonBlank (joinWords ws) = true := by
  cases ws with
  | nil => exact absurd rfl hne
  | cons w ws' =>
    obtain ⟨hd, hdw⟩ := h w (List.mem_cons_self w ws')
    obtain ⟨t, ht⟩ := joinData_cons w.data (ws'.map String.data)
    unfold isNonBlank joinWords
    simp only [List.map_cons, ht, List.any_append, String.data]
    cases hw : w.data with
    | nil => exact absurd hw hd
    | cons c cs =>
      have : c.isWhitespace = false := hdw c (by rw [hw]; exact List.mem_cons_self c cs)
      simp [hw, this]

/-- Defining equation of `chunkAux` with zero fuel. -/
theorem chunkAux_zero (words : List String) (cs s1 i : Nat) :
    chunkAux words cs s1 i 0 = [] := rfl

/-- Defining equation of `chunkAux` with positive fuel. -/
theorem chunkAux_succ (words : List String) (cs s1 i fuel : Nat) :
    chunkAux words cs s1 i (fuel + 1) =
      if i < words.length then
        ((words.drop i).take cs) ::
          (if words.length ≤ i + cs then []
           else chunkAux words cs s1 (i + s1 + 1) fuel)
      else [] := rfl

/-- Past the end of the word list the loop emits nothing. -/
theorem chunkAux_of_le (words : List String) (cs s1 i fuel : Nat)
    (h : words.length ≤ i) : chunkAux words cs s1 i fuel = [] := by
  cases fuel with
  | zero => rfl
  | succ fuel => rw [chunkAux_succ, if_neg (by omega)]

/-- Any fuel at least `words.length - i` gives the same windows: the fuel
argument is only a structural bound on the iteration count. -/
theorem chunkAux_fuel_irrel (words : List String) (cs s1 : Nat) :
    ∀ fuel₁ fuel₂ i, words.length - i ≤ fuel₁ → words.length - i ≤ fuel₂ →
      chunkAux words cs s1 i fuel₁ = chunkAux words cs s1 i fuel₂ := by
  intro fuel₁
  induction fuel₁ with
  | zero =>
    intro fuel₂ i h1 h2
    rw [chunkAux_zero, chunkAux_of_le words cs s1 i fuel₂ (by omega)]
  | succ fuel₁ ih =>
    intro fuel₂ i h1 h2
    by_cases hi : i < words.length
    · cases fuel₂ with
      | zero => omega
      | succ fuel₂ =>
        rw [chunkAux_succ, chunkAux_succ, if_pos hi, if_pos hi]
        by_cases hend : words.length ≤ i + cs
        · rw [if_pos hend, if_pos hend]
        · rw [if_neg hend, if_neg hend,
            ih fuel₂ (i + s1 + 1) (by omega) (by omega)]
    · rw [chunkAux_of_le words cs s1 i _ (by omega),
        chunkAux_of_le words cs s1 i _ (by omega)]

/-- Every word still ahead of the loop index lands in some emitted
window, provided the step `s1 + 1` does not exceed the window size. -/
theorem chunkAux_covers (words : List String) (cs s1 : Nat) (hstep : s1 + 1 ≤ cs) :
    ∀ fuel i, words.length - i ≤ fuel →
      ∀ w ∈ words.drop i, ∃ win ∈ chunkAux words cs s1 i fuel, w ∈ win := by
  intro fuel
  induction fuel with
  | zero =>
    intro i h w hw
    rw [List.drop_eq_nil_of_le (by omega)] at hw
    exact absurd hw (List.not_mem_nil w)
  | succ fuel ih =>
    intro i h w hw
    have hi : i < words.length := by
      by_contra hge
      rw [List.drop_eq_nil_of_le (by omega)] at hw
      exact absurd hw (List.not_mem_nil w)
    rw [chunkAux_succ, if_pos hi]
    by_cases hend : words.length ≤ i + cs
    · rw [if_pos hend]
      refine ⟨(words.drop i).take cs, List.mem_cons_self _ _, ?_⟩
      rwa [List.take_of_length_le (by rw [List.length_drop]; omega)]
    · rw [if_neg hend]
      rw [← List.take_append_drop cs (words.drop i)] at hw
      rcases List.mem_append.mp hw with hhead | htail
      · exact ⟨(words.drop i).take cs, List.mem_cons_self _ _, hhead⟩
      · rw [List.drop_drop] at htail
        have hsub : words.drop (i + cs) =
            (words.drop (i + s1 + 1)).drop (i + cs - (i + s1 + 1)) := by
          rw [List.drop_drop]
          congr 1
          omega
        rw [hsub] at htail
        obtain ⟨win, hwin, hmem⟩ :=
          ih (i + s1 + 1) (by omega) w (List.mem_of_mem_drop htail)
        exact ⟨win, List.mem_cons_of_mem _ hwin, hmem⟩

/-- With step exactly `cs` (overlap 0), the emitted windows partition the
remaining words: their concatenation is `words.drop i`. -/
theorem chunkAux_flatten (words : List String) (cs : Nat) (hcs : 1 ≤ cs) :
    ∀ fuel i, words.length - i ≤ fuel →
      (chunkAux words cs (cs - 1) i fuel).flatten = words.drop i := by
  intro fuel
  induction fuel with
  | zero =>
    intro i h
    rw [chunkAux_zero, List.flatten_nil, List.drop_eq_nil_of_le (by omega)]
  | succ fuel ih =>
    intro i h
    by_cases hi : i < words.length
    · rw [chunkAux_succ, if_pos hi]
      by_cases hend : words.length ≤ i + cs
      · rw [if_pos hend]
        simp only [List.flatten_cons, List.flatten_nil, List.append_nil]
        exact List.take_of_length_le (by rw [List.length_drop]; omega)
      · rw [if_neg hend]
        simp only [List.flatten_cons]
        have hstep : i + (cs - 1) + 1 = i + cs := by omega
        rw [hstep, ih (i + cs) (by omega), ← List.drop_drop cs i words]
        rw [Nat.add_comm] at *
        exact List.take_append_drop cs (words.drop i)
    · rw [chunkAux_of_le words cs (cs - 1) i _ (by omega), List.flatten_nil,
        List.drop_eq_nil_of_le (by omega)]

/-- Every window the loop emits is a `take cs` slice of a suffix starting
strictly inside the word list. -/
theorem chunkAux_mem_shape (words : List String) (cs s1 : Nat) :
    ∀ fuel i win, win ∈ chunkAux words cs s1 i fuel →
      ∃ k, k < words.length ∧ win = (words.drop k).take cs := by
  intro fuel
  induction fuel with
  | zero =>
    intro i win hwin
    rw [chunkAux_zero] at hwin
    exact absurd hwin (List.not_mem_nil win)
  | succ fuel ih =>
    intro i win hwin
    by_cases hi : i < words.length
    · rw [chunkAux_succ, if_pos hi] at hwin
      rcases List.mem_cons.mp hwin with h | h
      · exact ⟨i, hi, h⟩
      · by_cases hend : words.length ≤ i + cs
        · rw [if_pos hend] at h
          exact absurd h (List.not_mem_nil win)
        · rw [if_neg hend] at h
          exact ih (i + s1 + 1) win h
    · rw [chunkAux_of_le words cs s1 i _ (by omega)] at hwin
      exact absurd hwin (List.not_mem_nil win)

/-- Windows over the words of a text are non-empty lists of genuine words,
hence survive the `chunk.strip()` filter. -/
theorem window_nonblank (text : String) (cs s1 : Nat) (hcs : 1 ≤ cs)
    (win : List String) (hwin : win ∈ chunkWindows (splitWords text) cs s1) :
    win ≠ [] ∧ (∀ w ∈ win, w.data ≠ [] ∧ ∀ c ∈ w.data, c.isWhitespace = false) ∧
      isNonBlank (joinWords win) = true := by
  obtain ⟨k, hk, rfl⟩ := chunkAux_mem_shape (splitWords text) cs s1 _ 0 _ hwin
  have hne : ((splitWords text).drop k).take cs ≠ [] := by
    have : (((splitWords text).drop k).take cs).length =
        min cs ((splitWords text).length - k) := by
      rw [List.length_take, List.length_drop]
    intro hnil
    rw [hnil] at this
    simp at this
    omega
  have hwords : ∀ w ∈ ((splitWords text).drop k).take cs,
      w.data ≠ [] ∧ ∀ c ∈ w.data, c.isWhitespace = false := by
    intro w hw
    exact splitWords_sound text w (List.mem_of_mem_drop (List.mem_of_mem_take hw))
  exact ⟨hne, hwords, isNonBlank_joinWords _ hne hwords⟩

/-- When no window is blank, the `filterMap` of `chunk_text` is just
joining every window. -/
theorem filterMap_join_eq_map (l : List (List String))
    (h : ∀ win ∈ l, isNonBlank (joinWords win) = true) :
    (l.filterMap (fun win =>
        let chunk := joinWords win
        if isNonBlank chunk then some chunk else none)) = l.map joinWords := by
  induction l with
  | nil => rfl
  | cons win l ih =>
    rw [List.filterMap_cons, List.map_cons]
    simp only [h win (List.mem_cons_self win l), if_pos]
    rw [ih (fun w hw => h w (List.mem_cons_of_mem win hw))]

/-- For a valid configuration (`overlap < windowSize`) the chunker
succeeds and returns exactly the joined windows. -/
theorem chunk_text_valid (text : String) (cs ov : Nat) (h : ov < cs) :
    chunk_text text cs ov =
      Except.ok ((chunkWindows (splitWords text) cs (cs - ov - 1)).map joinWords) := by
  unfold chunk_text
  rw [if_neg (by omega), if_neg (by omega)]
  congr 1
  exact filterMap_join_eq_map _
    (fun win hwin => (window_nonblank text cs (cs - ov - 1) (by omega) win hwin).2.2)

/-- When the whole remaining tail fits in one window, the loop emits that
single window and stops (`break`). -/
theorem chunkAux_small (words : List String) (cs s1 i fuel : Nat)
    (hi : i < words.length) (hend : words.length ≤ i + cs)
    (hf : words.length - i ≤ fuel) :
    chunkAux words cs s1 i fuel = [(words.drop i).take cs] := by
  cases fuel with
  | zero => omega
  | succ fuel => rw [chunkAux_succ, if_pos hi, if_pos hend]

/-- When more words remain past the current window, the loop emits the
window and continues at `i + s1 + 1`, keeping the same fuel. -/
theorem chunkAux_cons (words : List String) (cs s1 i fuel : Nat)
    (hi : i < words.length) (hend : i + cs < words.length)
    (hf : words.length - i ≤ fuel) :
    chunkAux words cs s1 i fuel =
      ((words.drop i).take cs) :: chunkAux words cs s1 (i + s1 + 1) fuel := by
  cases fuel with
  | zero => omega
  | succ fuel =>
    rw [chunkAux_succ, if_pos hi, if_neg (by omega)]
    rw [chunkAux_fuel_irrel words cs s1 fuel (fuel + 1) (i + s1 + 1) (by omega) (by omega)]

example : splitWords "a  b c " = ["a", "b", "c"] := by decide
example : joinWords ["a", "b"] = "a b" := by decide
example : chunk_text "a b c d e" 2 0 = Except.ok ["a b", "c d", "e"] := rfl
example : chunk_text "a b c d e" 3 1 = Except.ok ["a b c", "c d e"] := rfl
example : chunk_text "" 5 2 = Except.ok [] := rfl
example : chunk_text "a b c" 5 5 = Except.error "range() arg 3 must not be zero" := rfl
example : chunk_text "a b c" 5 6 = Except.ok [] := rfl

/-- C1 (counterexample): on the 23-word text below, `chunk_text` with
windowSize 10 and overlap 5 emits FOUR chunks — word windows 0-9, 5-14,
10-19 and 15-22 — not the three chunks (0-9, 5-14, 10-22) the claim
states: the `break` only fires at start index 15, after a fourth window
began at index 10. -/
theorem C1_counterexample :
    (splitWords "a b c d e f g h i j k l m n o p q r s t u v w").length = 23 ∧
    chunk_text "a b c d e f g h i j k l m n o p q r s t u v w" 10 5 =
      Except.ok ["a b c d e f g h i j", "f g h i j k l m n o",
                 "k l m n o p q r s t", "p q r s t u v w"] ∧
    ["a b c d e f g h i j", "f g h i j k l m n o",
     "k l m n o p q r s t", "p q r s t u v w"].length = 4 :=
  ⟨by decide, rfl, rfl⟩

/-- C1 (amended): for every call of the chunker with windowSize 10 and
overlap 5 on an input text of exactly 23 whitespace-delimited words, the
output is exactly 4 chunks, covering word positions 0-9, 5-14, 10-19 and
15-22 respectively. -/
theorem C1_four_chunks (text : String) (h : (splitWords text).length = 23) :
    chunk_text text 10 5 =
      Except.ok [joinWords ((splitWords text).take 10),
                 joinWords (((splitWords text).drop 5).take 10),
                 joinWords (((splitWords text).drop 10).take 10),
                 joinWords ((splitWords text).drop 15)] := by
  rw [chunk_text_valid text 10 5 (by omega)]
  unfold chunkWindows
  rw [h]
  rw [chunkAux_cons (splitWords text) 10 4 0 23 (by omega) (by omega) (by omega)]
  rw [show 0 + 4 + 1 = 5 from rfl]
  rw [chunkAux_cons (splitWords text) 10 4 5 23 (by omega) (by omega) (by omega)]
  rw [show 5 + 4 + 1 = 10 from rfl]
  rw [chunkAux_cons (splitWords text) 10 4 10 23 (by omega) (by omega) (by omega)]
  rw [show 10 + 4 + 1 = 15 from rfl]
  rw [chunkAux_small (splitWords text) 10 4 15 23 (by omega) (by omega) (by omega)]
  rw [@List.take_of_length_le String 10 ((splitWords text).drop 15)
    (by rw [List.length_drop]; omega)]
  rw [List.drop_zero, List.map_cons, List.map_cons, List.map_cons,
    List.map_cons, List.map_nil]

/-- C1 (witness): the amended statement instantiated on a concrete
23-word text. -/
theorem C1_four_chunks_witness :
    chunk_text "a b c d e f g h i j k l m n o p q r s t u v w" 10 5 =
      Except.ok
        [joinWords ((splitWords "a b c d e f g h i j k l m n o p q r s t u v w").take 10),
         joinWords (((splitWords "a b c d e f g h i j k l m n o p q r s t u v w").drop 5).take 10),
         joinWords (((splitWords "a b c d e f g h i j k l m n o p q r s t u v w").drop 10).take 10),
         joinWords ((splitWords "a b c d e f g h i j k l m n o p q r s t u v w").drop 15)] :=
  C1_four_chunks "a b c d e f g h i j k l m n o p q r s t u v w" (by decide)

/-- C2 (observed code behavior at the claim's inputs): `chunk_text` does
NOT reject invalid configurations with an invalid-configuration error.
With windowSize = overlap = 5 it fails with the generic `ValueError`
raised by `range` on a zero step, and with overlap 6 > windowSize 5 it
silently succeeds with an empty list. -/
theorem C2_observed_behavior :
    chunk_text "a b c" 5 5 = Except.error "range() arg 3 must not be zero" ∧
    chunk_text "a b c" 5 6 = Except.ok [] :=
  ⟨rfl, rfl⟩

/-- C3: every formatted source's chunk text is the first
min(200, length) characters of the retrieved chunk text with an ellipsis
marker appended, even when the original text is shorter than 200
characters. -/
theorem C3_truncation (rs : List SearchResult) (r : SearchResult) (h : r ∈ rs) :
    ∃ s ∈ format_sources rs,
      s.chunk_text = String.mk (r.chunk_text.data.take 200) ++ "..." ∧
      (r.chunk_text.data.take 200).length = min 200 r.chunk_text.length := by
  refine ⟨_, List.mem_map_of_mem _ h, rfl, ?_⟩
  rw [List.length_take]
  rfl

/-- C3 (witness): a chunk of exactly 150 characters still receives the
appended ellipsis marker. -/
theorem C3_truncation_witness :
    ∃ s ∈ format_sources [c3result],
      s.chunk_text = String.mk (c3result.chunk_text.data.take 200) ++ "..." ∧
      (c3result.chunk_text.data.take 200).length = min 200 c3result.chunk_text.length :=
  C3_truncation [c3result] c3result (List.mem_singleton.mpr rfl)

/-- C4: on the successful generation path with non-empty retrieval
results, the confidence label is the bucketing of the mean distance:
mean < 0.3 → "high", 0.3 ≤ mean < 0.6 → "medium", mean ≥ 0.6 → "low"
(so a mean of exactly 0.3 gives "medium" and exactly 0.6 gives "low"). -/
theorem C4_confidence_buckets (rs : List SearchResult) (h : rs ≠ []) (q t : String) :
    (generate_answer rs q true (fun _ => GenOutcome.success t)).confidence =
      (if ((rs.map SearchResult.distance).sum) / (rs.length : Rat) < 3/10 then "high"
       else if ((rs.map SearchResult.distance).sum) / (rs.length : Rat) < 6/10 then "medium"
       else "low") := by
  have hie : rs.isEmpty = false := by simp [List.isEmpty_iff, h]
  simp [generate_answer, calculate_confidence, hie]

/-- C4 (witness): a single retrieved result at distance exactly 3/10
yields the label "medium". -/
theorem C4_confidence_buckets_witness :
    (generate_answer [⟨"t", some "f.txt", 3/10⟩] "q" true
      (fun _ => GenOutcome.success "a")).confidence = "medium" := by
  rw [C4_confidence_buckets [⟨"t", some "f.txt", 3/10⟩] (by simp) "q" "a"]
  norm_num

/-- C5: when the index search returns no results, `generate_answer`
returns exactly the fixed no-information answer, an empty source list and
confidence "none", independently of whether a generation backend is
configured and of what the backend would do — it is never invoked and no
error is raised. -/
theorem C5_no_results (q : String) (has_model : Bool) (gen : String → GenOutcome) :
    generate_answer [] q has_model gen =
      { answer := "No relevant information found in the uploaded documents.",
        sources := [],
        confidence := "none" } := rfl

/-- C6: with non-empty retrieval results and a configured backend, a
generation failure is caught: the answer is "Error generating answer: "
followed by the failure detail, sources are still populated from the
retrieved results, confidence is "error", and no failure propagates (the
operation is total). -/
theorem C6_generation_failure (rs : List SearchResult) (h : rs ≠ []) (q m : String) :
    generate_answer rs q true (fun _ => GenOutcome.failure m) =
      { answer := "Error generating answer: " ++ m,
        sources := format_sources rs,
        confidence := "error" } := by
  have hie : rs.isEmpty = false := by simp [List.isEmpty_iff, h]
  simp [generate_answer, hie]

/-- C6 (witness): the failure path evaluated on one concrete result. -/
theorem C6_generation_failure_witness :
    generate_answer [⟨"txt", some "a.txt", 1/2⟩] "q" true
        (fun _ => GenOutcome.failure "boom") =
      { answer := "Error generating answer: " ++ "boom",
        sources := format_sources [⟨"txt", some "a.txt", 1/2⟩],
        confidence := "error" } :=
  C6_generation_failure [⟨"txt", some "a.txt", 1/2⟩] (by simp) "q" "boom"

/-- C7: with non-empty retrieval results and no configured generation
backend, `generate_answer` returns the fixed explanatory answer, sources
populated from the retrieved results and confidence "none", for every
possible behavior of the (never consulted) backend. -/
theorem C7_no_backend (rs : List SearchResult) (h : rs ≠ []) (q : String)
    (gen : String → GenOutcome) :
    generate_answer rs q false gen =
      { answer := "Gemini API key not configured. Please set GEMINI_API_KEY in .env file.",
        sources := format_sources rs,
        confidence := "none" } := by
  have hie : rs.isEmpty = false := by simp [List.isEmpty_iff, h]
  simp [generate_answer, hie]

/-- C7 (witness): the unconfigured-backend path evaluated on one concrete
result. -/
theorem C7_no_backend_witness :
    generate_answer [⟨"txt", some "a.txt", 1/2⟩] "q" false
        (fun _ => GenOutcome.success "ignored") =
      { answer := "Gemini API key not configured. Please set GEMINI_API_KEY in .env file.",
        sources := format_sources [⟨"txt", some "a.txt", 1/2⟩],
        confidence := "none" } :=
  C7_no_backend [⟨"txt", some "a.txt", 1/2⟩] (by simp) "q" (fun _ => GenOutcome.success "ignored")

/-- C8: for every text and valid configuration (overlap < windowSize),
chunking succeeds, every whitespace-delimited word of the input appears
in at least one output chunk, and for overlap 0 the concatenation of the
chunks' word sequences is exactly the input's word sequence. -/
theorem C8_coverage (text : String) (cs ov : Nat) (h : ov < cs) :
    ∃ chunks, chunk_text text cs ov = Except.ok chunks ∧
      (∀ w ∈ splitWords text, ∃ c ∈ chunks, w ∈ splitWords c) ∧
      (ov = 0 → (chunks.map splitWords).flatten = splitWords text) := by
  refine ⟨_, chunk_text_valid text cs ov h, ?_, ?_⟩
  · intro w hw
    obtain ⟨win, hwin, hmem⟩ := chunkAux_covers (splitWords text) cs (cs - ov - 1)
      (by omega) (splitWords text).length 0 (by omega) w (by simpa using hw)
    refine ⟨joinWords win, List.mem_map_of_mem joinWords hwin, ?_⟩
    obtain ⟨hne, hwords, _⟩ := window_nonblank text cs (cs - ov - 1) (by omega) win hwin
    rw [splitWords_joinWords win hwords]
    exact hmem
  · intro hov
    subst hov
    rw [List.map_map]
    have hid : ∀ win ∈ chunkWindows (splitWords text) cs (cs - 0 - 1),
        (splitWords ∘ joinWords) win = id win := by
      intro win hwin
      obtain ⟨hne, hwords, _⟩ := window_nonblank text cs (cs - 0 - 1) (by omega) win hwin
      exact splitWords_joinWords win hwords
    rw [List.map_congr_left hid, List.map_id]
    unfold chunkWindows
    have hsub : cs - 0 - 1 = cs - 1 := by omega
    rw [hsub, chunkAux_flatten (splitWords text) cs (by omega) _ 0 (by omega), List.drop_zero]

/-- C8 (witness): coverage and exact partition on a concrete 5-word text
with windowSize 2 and overlap 0. -/
theorem C8_coverage_witness :
    ∃ chunks, chunk_text "a b c d e" 2 0 = Except.ok chunks ∧
      (∀ w ∈ splitWords "a b c d e", ∃ c ∈ chunks, w ∈ splitWords c) ∧
      (0 = 0 → (chunks.map splitWords).flatten = splitWords "a b c d e") :=
  C8_coverage "a b c d e" 2 0 (by omega)

/-- C9 (counterexample): the whitespace-only text " " is non-empty and
has 0 < 5 whitespace-delimited words, yet `chunk_text` with windowSize 5
and overlap 0 returns NO chunk at all, not the single chunk the claim
requires: the blank window is dropped by the `chunk.strip()` filter and,
with zero words, the loop never runs. -/
theorem C9_counterexample :
    (" " : String) ≠ "" ∧ (splitWords " ").length < 5 ∧ 0 < 5 ∧
    chunk_text " " 5 0 = Except.ok [] :=
  ⟨by decide, by decide, by decide, rfl⟩

/-- C9 (amended): for every valid configuration (overlap < windowSize),
chunking an empty input text returns the empty sequence, and chunking a
text containing at least one whitespace-delimited word but fewer words
than windowSize returns exactly one chunk whose word sequence is the
whole input's word sequence (the words rejoined with single spaces). -/
theorem C9_edge_cases (text : String) (cs ov : Nat) (h : ov < cs) :
    chunk_text "" cs ov = Except.ok [] ∧
    (splitWords text ≠ [] → (splitWords text).length < cs →
      chunk_text text cs ov = Except.ok [joinWords (splitWords text)] ∧
      splitWords (joinWords (splitWords text)) = splitWords text) := by
  constructor
  · rw [chunk_text_valid "" cs ov h]
    rfl
  · intro hne hlt
    have hpos : 0 < (splitWords text).length := List.length_pos.mpr hne
    constructor
    · rw [chunk_text_valid text cs ov h]
      unfold chunkWindows
      rw [chunkAux_small (splitWords text) cs (cs - ov - 1) 0 _ (by omega) (by omega) (by omega)]
      rw [List.drop_zero, List.take_of_length_le (by omega)]
      rfl
    · exact splitWords_joinWords _ (splitWords_sound text)

/-- C9 (witness): the amended statement evaluated at windowSize 5,
overlap 1, on the empty text and on the 2-word text "a b". -/
theorem C9_edge_cases_witness :
    chunk_text "" 5 1 = Except.ok [] ∧
    chunk_text "a b" 5 1 = Except.ok [joinWords (splitWords "a b")] :=
  ⟨(C9_edge_cases "a b" 5 1 (by omega)).1,
   ((C9_edge_cases "a b" 5 1 (by omega)).2 (by decide) (by decide)).1⟩

/-- C10: for every text, calling the chunker with overlap strictly
greater than windowSize (negative `range` step) terminates and returns
the empty sequence, and calling it with overlap equal to windowSize (zero
`range` step) raises an exception immediately — the model is a total
function, mirroring that Python's `range` is empty for a negative step
and raises `ValueError` for a zero step before any loop iteration. -/
theorem C10_degenerate_configs (text : String) (cs ov : Nat) :
    (cs < ov → chunk_text text cs ov = Except.ok []) ∧
    (cs = ov → chunk_text text cs ov = Except.error "range() arg 3 must not be zero") := by
  constructor
  · intro hlt
    unfold chunk_text
    rw [if_neg (by omega), if_pos hlt]
  · intro heq
    unfold chunk_text
    rw [if_pos heq]

/-- C10 (witness): both degenerate configurations evaluated on a concrete
text. -/
theorem C10_degenerate_configs_witness :
    chunk_text "x y" 3 7 = Except.ok [] ∧
    chunk_text "x y" 4 4 = Except.error "range() arg 3 must not be zero" :=
  ⟨(C10_degenerate_configs "x y" 3 7).1 (by omega),
   (C10_degenerate_configs "x y" 4 4).2 rfl⟩
